import Mathlib

/-
Shallow embedding of the rsraytracer sources (src/vec3.rs, src/ray.rs,
src/utils.rs, src/object.rs, src/main.rs).  Rust f64 values are modelled
as real numbers; the parametric bounds t_min and t_max of intersection
tests are modelled as extended reals so that the f64 INFINITY used by
ray_color in main.rs has a faithful counterpart (the bounds are only
compared, never used arithmetically, in the source).  Randomness drawn
from the ambient generator is modelled by passing each drawn value as an
explicit argument.
-/

namespace RSRay

open Classical

noncomputable section

/-- Triple of f64 components, from vec3.rs (struct Vec3 with e: [f64; 3]
and accessors x, y, z). -/
structure Vec3 where
  x : ℝ
  y : ℝ
  z : ℝ

instance : Add Vec3 :=
  ⟨fun a b => ⟨a.x + b.x, a.y + b.y, a.z + b.z⟩⟩

instance : Sub Vec3 :=
  ⟨fun a b => ⟨a.x - b.x, a.y - b.y, a.z - b.z⟩⟩

instance : Neg Vec3 :=
  ⟨fun a => ⟨-a.x, -a.y, -a.z⟩⟩

instance : HMul Vec3 ℝ Vec3 :=
  ⟨fun a r => ⟨a.x * r, a.y * r, a.z * r⟩⟩

instance : HMul Vec3 Vec3 Vec3 :=
  ⟨fun a b => ⟨a.x * b.x, a.y * b.y, a.z * b.z⟩⟩

instance : HDiv Vec3 ℝ Vec3 :=
  ⟨fun a r => ⟨a.x / r, a.y / r, a.z / r⟩⟩

/-- vec3.rs: dot product. -/
def dot (a b : Vec3) : ℝ :=
  a.x * b.x + a.y * b.y + a.z * b.z

/-- vec3.rs: Vec3::len_squared. -/
def Vec3.len_squared (v : Vec3) : ℝ :=
  v.x * v.x + v.y * v.y + v.z * v.z

/-- vec3.rs: Vec3::len. -/
def Vec3.len (v : Vec3) : ℝ :=
  Real.sqrt v.len_squared

/-- vec3.rs: Vec3::unit_vector (self / self.len()). -/
def Vec3.unit_vector (v : Vec3) : Vec3 :=
  v / v.len

/-- vec3.rs: free function unit_vector, same body as the method. -/
def unit_vector (v : Vec3) : Vec3 :=
  v / v.len

/-- vec3.rs: Vec3::near_zero — all components have absolute value
below s = 1e-8. -/
def Vec3.near_zero (v : Vec3) : Prop :=
  |v.x| < 1e-8 ∧ |v.y| < 1e-8 ∧ |v.z| < 1e-8

/-- ray.rs: struct Ray. -/
structure Ray where
  origin : Vec3
  direction : Vec3

/-- ray.rs: Ray::at(t) = origin + direction * t. -/
def Ray.at (r : Ray) (t : ℝ) : Vec3 :=
  r.origin + r.direction * t

/-- utils.rs: clamp. -/
def clamp (x min max : ℝ) : ℝ :=
  if x < min then min else if x > max then max else x

/-- object.rs: materials Lambertian, Metal, Dielectric as a closed set
of variants (the source uses boxed trait objects over exactly these
three). -/
structure Lambertian where
  albedo : Vec3

structure Metal where
  albedo : Vec3
  fuzz : ℝ

structure Dielectric where
  ref_idx : ℝ

inductive Material where
  | lambertian (m : Lambertian)
  | metal (m : Metal)
  | dielectric (m : Dielectric)

/-- object.rs: struct HitRecord.  front_face is a stored boolean in the
source; over real comparisons it is modelled as the corresponding
proposition. -/
structure HitRecord where
  t : ℝ
  p : Vec3
  normal : Vec3
  front_face : Prop
  material : Material

/-- object.rs: HitRecord::set_face_normal. -/
def HitRecord.set_face_normal (hrec : HitRecord) (ray : Ray) (outward_normal : Vec3) :
    HitRecord :=
  let ff := dot ray.direction outward_normal < 0
  { hrec with
      front_face := ff
      normal := if ff then outward_normal else -outward_normal }

/-- object.rs: reflect(v, n) = v - n * dot(v, n) * 2.0. -/
def reflect (v n : Vec3) : Vec3 :=
  v - n * dot v n * (2 : ℝ)

/-- object.rs refract, intermediate value: r_out_perp =
(uv + n * cos_theta) * etai_over_etat with cos_theta = min(dot(-uv,n), 1). -/
def refract_r_out_perp (uv n : Vec3) (etai_over_etat : ℝ) : Vec3 :=
  let cos_theta := min (dot (-uv) n) 1
  (uv + n * cos_theta) * etai_over_etat

/-- object.rs refract: the quantity the source passes to sqrt when
forming r_out_parallel, namely (1.0 - r_out_perp.len_squared()).abs(). -/
def refract_radicand (uv n : Vec3) (etai_over_etat : ℝ) : ℝ :=
  |1 - (refract_r_out_perp uv n etai_over_etat).len_squared|

/-- object.rs: refract(uv, n, etai_over_etat). -/
def refract (uv n : Vec3) (etai_over_etat : ℝ) : Vec3 :=
  let r_out_perp := refract_r_out_perp uv n etai_over_etat
  let r_out_parallel := n * (-(Real.sqrt (refract_radicand uv n etai_over_etat)))
  r_out_perp + r_out_parallel

/-- object.rs: Dielectric::reflectance (Schlick approximation). -/
def Dielectric.reflectance (cosine ref_idx : ℝ) : ℝ :=
  let r0 := (1 - ref_idx) / (1 + ref_idx)
  let r0 := r0 * r0
  r0 + (1 - r0) * (1 - cosine) ^ 5

/-- object.rs: Dielectric::scatter.  The single random_float() draw is
passed as the argument random_float. -/
def Dielectric.scatter (self : Dielectric) (ray : Ray) (hrec : HitRecord)
    (random_float : ℝ) : Option (Vec3 × Ray) :=
  let attenuation : Vec3 := ⟨1, 1, 1⟩
  let refraction_ratio := if hrec.front_face then 1 / self.ref_idx else self.ref_idx
  let unit_direction := ray.direction.unit_vector
  let cos_theta := min (-(dot unit_direction hrec.normal)) 1
  let sin_theta := Real.sqrt (1 - cos_theta * cos_theta)
  let cannot_refract := refraction_ratio * sin_theta > 1
  let direction :=
    if cannot_refract ∨ Dielectric.reflectance cos_theta refraction_ratio > random_float
    then reflect unit_direction hrec.normal
    else refract unit_direction hrec.normal refraction_ratio
  some (attenuation, Ray.mk hrec.p direction)

/-- object.rs: Metal::scatter.  The Vec3::random_in_unit_sphere() draw is
passed as the argument random_in_unit_sphere. -/
def Metal.scatter (self : Metal) (ray : Ray) (hrec : HitRecord)
    (random_in_unit_sphere : Vec3) : Option (Vec3 × Ray) :=
  let reflected := reflect ray.direction.unit_vector hrec.normal
  let scattered := Ray.mk hrec.p (reflected + random_in_unit_sphere * self.fuzz)
  if dot scattered.direction hrec.normal > 0 then
    some (self.albedo, scattered)
  else
    none

/-- object.rs: Lambertian::scatter.  The Vec3::random_unit_vector() draw
is passed as the argument random_unit_vector. -/
def Lambertian.scatter (self : Lambertian) (_ray : Ray) (hrec : HitRecord)
    (random_unit_vector : Vec3) : Option (Vec3 × Ray) :=
  let scatter_direction := hrec.normal + random_unit_vector
  if scatter_direction.near_zero then
    none
  else
    some (self.albedo, Ray.mk hrec.p scatter_direction)

/-- One bundle of the random values any material may draw during a
single scatter call. -/
structure Rand where
  unit_vec : Vec3
  in_sphere : Vec3
  float : ℝ

/-- Dynamic dispatch of Material::scatter over the closed variant set. -/
def Material.scatter (m : Material) (ray : Ray) (hrec : HitRecord) (rnd : Rand) :
    Option (Vec3 × Ray) :=
  match m with
  | .lambertian l => l.scatter ray hrec rnd.unit_vec
  | .metal mt => mt.scatter ray hrec rnd.in_sphere
  | .dielectric d => d.scatter ray hrec rnd.float

/-- object.rs: struct Sphere. -/
structure Sphere where
  center : Vec3
  radius : ℝ
  material : Material

/-- object.rs Sphere::hit, lines 149-158: once a root has been selected,
build the HitRecord (t, p = ray.at(t), placeholder normal, front_face
false, cloned material) and run set_face_normal with outward normal
(p - center) / radius. -/
def Sphere.mkHit (self : Sphere) (ray : Ray) (t : ℝ) : HitRecord :=
  let hrec : HitRecord :=
    { t := t
      p := ray.at t
      normal := ⟨0, 0, 0⟩
      front_face := False
      material := self.material }
  let outward_normal := (hrec.p - self.center) / self.radius
  hrec.set_face_normal ray outward_normal

/-- object.rs: Sphere::hit.  Note the source's inner `let root` rebinding
is a Rust shadowing that ends at the inner block, so the record built
afterwards always uses the outer root (the smaller one), even when only
the rebound larger root passed the range test. -/
def Sphere.hit (self : Sphere) (ray : Ray) (t_min t_max : EReal) :
    Option HitRecord :=
  let oc := ray.origin - self.center
  let a := ray.direction.len_squared
  let half_b := dot oc ray.direction
  let c := oc.len_squared - self.radius * self.radius
  let discriminant := half_b * half_b - a * c
  if discriminant < 0 then none
  else
    let sqrtd := Real.sqrt discriminant
    let root := (-half_b - sqrtd) / a
    if (root : EReal) < t_min ∨ t_max < (root : EReal) then
      let root2 := (-half_b + sqrtd) / a
      if (root2 : EReal) < t_min ∨ t_max < (root2 : EReal) then none
      else some (self.mkHit ray root)
    else some (self.mkHit ray root)

/-- object.rs: the closed set of Object variants (Sphere, ObjectList);
an ObjectList owns an ordered collection of Objects. -/
inductive Object where
  | sphere (s : Sphere)
  | list (objects : List Object)

mutual

/-- object.rs: dynamic dispatch of Object::hit. -/
def Object.hit (o : Object) (ray : Ray) (t_min t_max : EReal) :
    Option HitRecord :=
  match o with
  | .sphere s => s.hit ray t_min t_max
  | .list objects => ObjectList.hitLoop objects ray t_min t_max none

/-- object.rs ObjectList::hit, lines 186-194: the loop state is the pair
(closest_so_far, hit_anything); each accepted hit narrows the upper
bound to its t. -/
def ObjectList.hitLoop (objects : List Object) (ray : Ray) (t_min : EReal)
    (closest_so_far : EReal) (hit_anything : Option HitRecord) :
    Option HitRecord :=
  match objects with
  | [] => hit_anything
  | object :: rest =>
    match Object.hit object ray t_min closest_so_far with
    | some hrec => ObjectList.hitLoop rest ray t_min (hrec.t : EReal) (some hrec)
    | none => ObjectList.hitLoop rest ray t_min closest_so_far hit_anything

end

/-- object.rs: ObjectList::hit with initial state closest_so_far = t_max,
hit_anything = None. -/
def ObjectList.hit (objects : List Object) (ray : Ray) (t_min t_max : EReal) :
    Option HitRecord :=
  ObjectList.hitLoop objects ray t_min t_max none

/-- The sequence of hits accepted during ObjectList::hit's scan, in scan
order; mirrors the loop's narrowing of closest_so_far. -/
def ObjectList.acceptedHits (objects : List Object) (ray : Ray) (t_min : EReal)
    (closest_so_far : EReal) : List HitRecord :=
  match objects with
  | [] => []
  | object :: rest =>
    match Object.hit object ray t_min closest_so_far with
    | some hrec => hrec :: ObjectList.acceptedHits rest ray t_min (hrec.t : EReal)
    | none => ObjectList.acceptedHits rest ray t_min closest_so_far

/-- main.rs: ray_color.  The world is intersected over
(0.001, f64::INFINITY); the infinity becomes the top extended real.  The
per-bounce random draws come from the stream rng, indexed by the
remaining depth. -/
def ray_color (r : Ray) (world : Object) (depth : ℤ) (rng : ℕ → Rand) : Vec3 :=
  if depth ≤ 0 then ⟨0, 0, 0⟩
  else
    match (Object.hit world r ((0.001 : ℝ) : EReal) ⊤).map
        (fun hrec => (hrec, Material.scatter hrec.material r hrec (rng depth.toNat))) with
    | some (_, some (attenuation, scattered)) =>
        attenuation * ray_color scattered world (depth - 1) rng
    | some (_, none) => ⟨0, 0, 0⟩
    | none =>
        let unit_direction := unit_vector r.direction
        let t := 0.5 * (unit_direction.y + 1)
        (⟨1, 1, 1⟩ : Vec3) * (1 - t) + (⟨0.5, 0.7, 1⟩ : Vec3) * t
termination_by depth.toNat
decreasing_by
  simp_wf
  omega

/-- Rust `as i32` on an f64: truncation toward zero, saturating at the
i32 bounds. -/
def f64_as_i32 (x : ℝ) : ℤ :=
  let t := if x < 0 then ⌈x⌉ else ⌊x⌋
  max (-2147483648) (min 2147483647 t)

/-- vec3.rs: write_color — scale by 1/samples_per_pixel, gamma-2 via
sqrt, clamp to [0, 0.999], scale by 256 and truncate to integer.  The
formatted string is modelled as the triple of integers it prints. -/
def write_color (pixel_color : Vec3) (samples_per_pixel : ℤ) : ℤ × ℤ × ℤ :=
  let r := pixel_color.x
  let g := pixel_color.y
  let b := pixel_color.z
  let scale := 1 / (samples_per_pixel : ℝ)
  let r := Real.sqrt (r * scale)
  let g := Real.sqrt (g * scale)
  let b := Real.sqrt (b * scale)
  (f64_as_i32 (256 * clamp r 0 0.999),
   f64_as_i32 (256 * clamp g 0 0.999),
   f64_as_i32 (256 * clamp b 0 0.999))

/-! Component-level evaluation lemmas for the Vec3 algebra. -/

@[simp]
theorem Vec3.mk_add_mk (a b c d e f : ℝ) :
    (⟨a, b, c⟩ : Vec3) + (⟨d, e, f⟩ : Vec3) = ⟨a + d, b + e, c + f⟩ :=
  rfl

@[simp]
theorem Vec3.mk_sub_mk (a b c d e f : ℝ) :
    (⟨a, b, c⟩ : Vec3) - (⟨d, e, f⟩ : Vec3) = ⟨a - d, b - e, c - f⟩ :=
  rfl

@[simp]
theorem Vec3.neg_mk (a b c : ℝ) :
    -(⟨a, b, c⟩ : Vec3) = ⟨-a, -b, -c⟩ :=
  rfl

@[simp]
theorem Vec3.mk_smul (a b c r : ℝ) :
    (⟨a, b, c⟩ : Vec3) * r = ⟨a * r, b * r, c * r⟩ :=
  rfl

@[simp]
theorem Vec3.mk_mul_mk (a b c d e f : ℝ) :
    (⟨a, b, c⟩ : Vec3) * (⟨d, e, f⟩ : Vec3) = ⟨a * d, b * e, c * f⟩ :=
  rfl

@[simp]
theorem Vec3.mk_div (a b c r : ℝ) :
    (⟨a, b, c⟩ : Vec3) / r = ⟨a / r, b / r, c / r⟩ :=
  rfl

@[simp]
theorem dot_mk (a b c d e f : ℝ) :
    dot ⟨a, b, c⟩ ⟨d, e, f⟩ = a * d + b * e + c * f :=
  rfl

@[simp]
theorem Vec3.len_squared_mk (a b c : ℝ) :
    Vec3.len_squared ⟨a, b, c⟩ = a * a + b * b + c * c :=
  rfl

theorem Vec3.smul_zero (v : Vec3) : v * (0 : ℝ) = (⟨0, 0, 0⟩ : Vec3) := by
  cases v
  simp

theorem Vec3.add_zero (v : Vec3) : v + (⟨0, 0, 0⟩ : Vec3) = v := by
  cases v
  simp

theorem Vec3.len_squared_nonneg (v : Vec3) : 0 ≤ v.len_squared := by
  have hx := mul_self_nonneg v.x
  have hy := mul_self_nonneg v.y
  have hz := mul_self_nonneg v.z
  unfold Vec3.len_squared
  linarith

/-! Projection lemmas for the records produced by Sphere::hit. -/

@[simp]
theorem HitRecord.set_face_normal_t (hrec : HitRecord) (ray : Ray) (n : Vec3) :
    (hrec.set_face_normal ray n).t = hrec.t :=
  rfl

@[simp]
theorem Sphere.mkHit_t (s : Sphere) (ray : Ray) (t : ℝ) :
    (s.mkHit ray t).t = t :=
  rfl

theorem Sphere.mkHit_p (s : Sphere) (ray : Ray) (t : ℝ) :
    (s.mkHit ray t).p = ray.at t :=
  rfl

theorem Sphere.mkHit_front_face (s : Sphere) (ray : Ray) (t : ℝ) :
    (s.mkHit ray t).front_face =
      (dot ray.direction ((ray.at t - s.center) / s.radius) < 0) :=
  rfl

theorem Sphere.mkHit_normal (s : Sphere) (ray : Ray) (t : ℝ) :
    (s.mkHit ray t).normal =
      (if dot ray.direction ((ray.at t - s.center) / s.radius) < 0 then
        (ray.at t - s.center) / s.radius
      else -((ray.at t - s.center) / s.radius)) :=
  rfl

/-- Claim C10: the refract helper is total with respect to its square
root — the radicand forming the parallel component is the absolute value
|1 - |r_out_perp|²|, hence nonnegative, so sqrt is never applied to a
negative number even when |r_out_perp|² exceeds 1. -/
theorem refract_radicand_nonneg (uv n : Vec3) (etai_over_etat : ℝ) :
    0 ≤ refract_radicand uv n etai_over_etat ∧
    refract_radicand uv n etai_over_etat =
      |1 - (refract_r_out_perp uv n etai_over_etat).len_squared| ∧
    refract uv n etai_over_etat =
      refract_r_out_perp uv n etai_over_etat +
        n * (-(Real.sqrt (refract_radicand uv n etai_over_etat))) :=
  ⟨abs_nonneg _, rfl, rfl⟩

/-- Claim C5: Dielectric::scatter always returns a result, and the
attenuation is always exactly (1, 1, 1). -/
theorem dielectric_scatter_total (d : Dielectric) (ray : Ray) (hrec : HitRecord)
    (random_float : ℝ) :
    ∃ scattered : Ray,
      Dielectric.scatter d ray hrec random_float =
        some ((⟨1, 1, 1⟩ : Vec3), scattered) :=
  ⟨_, rfl⟩

/-- Claim C8: ray_color with a nonpositive depth budget returns exactly
black, for every ray, world and random stream. -/
theorem ray_color_depth_nonpos_black (r : Ray) (world : Object) (depth : ℤ)
    (rng : ℕ → Rand) (h : depth ≤ 0) :
    ray_color r world depth rng = (⟨0, 0, 0⟩ : Vec3) := by
  rw [ray_color]
  rw [if_pos h]

/-- Claim C8, witness: at depth 0 over the empty world the result is
black. -/
theorem ray_color_depth_nonpos_black_witness :
    ray_color ⟨⟨0, 0, 0⟩, ⟨0, 0, 1⟩⟩ (Object.list []) 0
      (fun _ => ⟨⟨0, 0, 0⟩, ⟨0, 0, 0⟩, 0⟩) = (⟨0, 0, 0⟩ : Vec3) :=
  ray_color_depth_nonpos_black _ _ _ _ (by norm_num)

/-- Claim C9: write_color maps (1,1,1) at one sample per pixel to the
integer triple (255,255,255), and (0,0,0) to (0,0,0), through scaling,
gamma-2 square root, clamping to [0, 0.999], scaling by 256 and integer
truncation. -/
theorem write_color_endpoints :
    write_color ⟨1, 1, 1⟩ 1 = (255, 255, 255) ∧
    write_color ⟨0, 0, 0⟩ 1 = (0, 0, 0) := by
  have hc1 : clamp 1 0 (999 / 1000) = (999 / 1000 : ℝ) := by
    unfold clamp
    rw [if_neg (by norm_num), if_pos (by norm_num)]
  have hc0 : clamp 0 0 (999 / 1000) = (0 : ℝ) := by
    unfold clamp
    rw [if_neg (by norm_num), if_neg (by norm_num)]
  have hf1 : f64_as_i32 (31968 / 125 : ℝ) = 255 := by
    unfold f64_as_i32
    rw [if_neg (by norm_num)]
    have hfl : ⌊(31968 / 125 : ℝ)⌋ = 255 := by
      rw [Int.floor_eq_iff]
      constructor <;> norm_num
    rw [hfl]
    norm_num
  have hf0 : f64_as_i32 (0 : ℝ) = 0 := by
    unfold f64_as_i32
    rw [if_neg (by norm_num)]
    norm_num
  constructor
  · unfold write_color
    norm_num [Real.sqrt_one, hc1, hf1]
  · unfold write_color
    norm_num [Real.sqrt_zero, hc0, hf0]

@[simp]
theorem Ray.direction_mk (o d : Vec3) : (Ray.mk o d).direction = d :=
  rfl

@[simp]
theorem Ray.origin_mk (o d : Vec3) : (Ray.mk o d).origin = o :=
  rfl

theorem dot_neg_right (a b : Vec3) : dot a (-b) = -(dot a b) := by
  cases a
  cases b
  simp [dot]
  ring

/-- Placeholder material for concrete fixtures. -/
def mat0 : Material := Material.lambertian ⟨⟨0, 0, 0⟩⟩

/-- Unit sphere at the origin. -/
def bugSphere : Sphere := ⟨⟨0, 0, 0⟩, 1, mat0⟩

/-- Ray starting at the center of bugSphere, so the smaller quadratic
root is negative while the larger root is 1. -/
def bugRay : Ray := ⟨⟨0, 0, 0⟩, ⟨0, 0, 1⟩⟩

/-- Claim C1: evaluation of Sphere::hit at a ray starting inside the
sphere.  The smaller root -1 is below t_min = 0.001 and the larger root
1 is inside (t_min, t_max), yet the returned record carries t = -1: the
source's inner `let root` rebinding is a shadowing that ends with its
block, so the record is built from the out-of-range smaller root,
contradicting the claimed t_min <= t <= t_max. -/
theorem sphere_hit_keeps_out_of_range_smaller_root :
    (Sphere.hit bugSphere bugRay ((0.001 : ℝ) : EReal) ((100 : ℝ) : EReal)).map
        HitRecord.t = some (-1) ∧
      (-1 : ℝ) < 0.001 := by
  refine ⟨?_, by norm_num⟩
  simp only [Sphere.hit, bugSphere, bugRay, Vec3.mk_sub_mk, dot_mk, Vec3.len_squared_mk,
    EReal.coe_lt_coe_iff]
  norm_num [Real.sqrt_one]

/-- Every successful Sphere::hit result is a record built by mkHit from
some root. -/
theorem sphere_hit_eq_mkHit (s : Sphere) (ray : Ray) (t_min t_max : EReal)
    (hrec : HitRecord) (h : Sphere.hit s ray t_min t_max = some hrec) :
    ∃ t, hrec = s.mkHit ray t := by
  simp only [Sphere.hit] at h
  split at h
  · exact absurd h (by simp)
  · split at h
    · split at h
      · exact absurd h (by simp)
      · exact ⟨_, (Option.some.inj h).symm⟩
    · exact ⟨_, (Option.some.inj h).symm⟩

/-- Claim C4: every record returned by Sphere::hit has front_face true
exactly when the ray direction and the outward normal
(p - center)/radius have negative dot product, stores the outward normal
or its negation accordingly, and therefore its normal never has positive
dot product with the ray direction. -/
theorem sphere_hit_face_normal (s : Sphere) (ray : Ray) (t_min t_max : EReal)
    (hrec : HitRecord) (h : Sphere.hit s ray t_min t_max = some hrec) :
    (hrec.front_face ↔ dot ray.direction ((hrec.p - s.center) / s.radius) < 0) ∧
    hrec.normal =
      (if dot ray.direction ((hrec.p - s.center) / s.radius) < 0 then
        (hrec.p - s.center) / s.radius
      else -((hrec.p - s.center) / s.radius)) ∧
    dot ray.direction hrec.normal ≤ 0 := by
  obtain ⟨t, rfl⟩ := sphere_hit_eq_mkHit s ray t_min t_max hrec h
  rw [Sphere.mkHit_p, Sphere.mkHit_front_face, Sphere.mkHit_normal]
  refine ⟨Iff.rfl, rfl, ?_⟩
  by_cases hd : dot ray.direction ((ray.at t - s.center) / s.radius) < 0
  · rw [if_pos hd]
    exact le_of_lt hd
  · rw [if_neg hd, dot_neg_right]
    linarith [not_lt.mp hd]

/-- Sphere for the face-normal witness: centered one unit in front of
the origin along -z, radius 1/2. -/
def wSphereC4 : Sphere := ⟨⟨0, 0, -1⟩, 0.5, mat0⟩

/-- Ray from the origin straight at wSphereC4. -/
def wRayC4 : Ray := ⟨⟨0, 0, 0⟩, ⟨0, 0, -1⟩⟩

theorem sqrt_quarter : Real.sqrt (1 / 4) = 1 / 2 := by
  rw [show (1 / 4 : ℝ) = (1 / 2) ^ 2 by norm_num,
    Real.sqrt_sq (by norm_num : (0 : ℝ) ≤ 1 / 2)]

theorem sqrt_four : Real.sqrt 4 = 2 := by
  rw [show (4 : ℝ) = 2 ^ 2 by norm_num,
    Real.sqrt_sq (by norm_num : (0 : ℝ) ≤ 2)]

/-- Evaluation of Sphere::hit for the face-normal witness: the smaller
root 1/2 is accepted directly. -/
theorem wSphereC4_hit_eval :
    Sphere.hit wSphereC4 wRayC4 ((0.001 : ℝ) : EReal) ((100 : ℝ) : EReal) =
      some (wSphereC4.mkHit wRayC4 (1 / 2)) := by
  simp only [Sphere.hit, wSphereC4, wRayC4, Vec3.mk_sub_mk, dot_mk, Vec3.len_squared_mk,
    EReal.coe_lt_coe_iff]
  norm_num [sqrt_quarter, sqrt_four]

/-- Claim C4, witness: the accepted hit of wSphereC4 faces the ray
(front_face) and its normal opposes the ray direction. -/
theorem sphere_hit_face_normal_witness :
    ((wSphereC4.mkHit wRayC4 (1 / 2)).front_face ↔
      dot wRayC4.direction
        (((wSphereC4.mkHit wRayC4 (1 / 2)).p - wSphereC4.center) / wSphereC4.radius) < 0) ∧
    dot wRayC4.direction (wSphereC4.mkHit wRayC4 (1 / 2)).normal ≤ 0 := by
  have H := sphere_hit_face_normal wSphereC4 wRayC4 ((0.001 : ℝ) : EReal)
    ((100 : ℝ) : EReal) (wSphereC4.mkHit wRayC4 (1 / 2)) wSphereC4_hit_eval
  exact ⟨H.1, H.2.2⟩

/-- Claim C6: Metal::scatter succeeds exactly when the fuzz-perturbed
reflection has positive dot product with the normal; on success the
attenuation is the metal's albedo and the scattered direction is the
perturbed reflection; with fuzz = 0 that direction is the exact mirror
reflection v - n * dot(v, n) * 2 of the unit incoming direction. -/
theorem metal_scatter_spec (m : Metal) (ray : Ray) (hrec : HitRecord) (rnd : Vec3) :
    ((Metal.scatter m ray hrec rnd).isSome ↔
      dot (reflect ray.direction.unit_vector hrec.normal + rnd * m.fuzz) hrec.normal > 0) ∧
    (∀ att sc, Metal.scatter m ray hrec rnd = some (att, sc) →
      att = m.albedo ∧
      sc.direction = reflect ray.direction.unit_vector hrec.normal + rnd * m.fuzz) ∧
    (m.fuzz = 0 →
      reflect ray.direction.unit_vector hrec.normal + rnd * m.fuzz =
        ray.direction.unit_vector -
          hrec.normal * dot ray.direction.unit_vector hrec.normal * (2 : ℝ)) := by
  refine ⟨?_, ?_, ?_⟩
  · unfold Metal.scatter
    by_cases hd :
        dot (reflect ray.direction.unit_vector hrec.normal + rnd * m.fuzz) hrec.normal > 0
    · rw [if_pos (by simpa using hd)]
      simpa using hd
    · rw [if_neg (by simpa using hd)]
      simpa using hd
  · intro att sc h
    simp only [Metal.scatter, Ray.direction_mk] at h
    split at h
    · rw [Option.some.injEq, Prod.mk.injEq] at h
      obtain ⟨h1, h2⟩ := h
      exact ⟨h1.symm, by rw [← h2]⟩
    · exact absurd h (by simp)
  · intro hf
    rw [hf, Vec3.smul_zero, Vec3.add_zero, reflect]

/-- Metal of the render scene with fuzz 0. -/
def wMetal : Metal := ⟨⟨0.8, 0.6, 0.2⟩, 0⟩

/-- Downward-facing unit ray for the material witnesses. -/
def wRayM : Ray := ⟨⟨0, 0, 0⟩, ⟨0, 0, -1⟩⟩

/-- Fixed hit record with normal (0,0,1) for the material witnesses. -/
def wRecM : HitRecord := ⟨1, ⟨0, 0, 0⟩, ⟨0, 0, 1⟩, True, mat0⟩

/-- Evaluation of Metal::scatter at the witness fixture: the mirror
reflection of (0,0,-1) about (0,0,1) is (0,0,1) and is accepted. -/
theorem wMetal_scatter_eval :
    Metal.scatter wMetal wRayM wRecM ⟨0, 0, 0⟩ =
      some ((⟨0.8, 0.6, 0.2⟩ : Vec3), Ray.mk wRecM.p ⟨0, 0, 1⟩) := by
  simp only [Metal.scatter, wMetal, wRayM, wRecM, reflect, Vec3.unit_vector, Vec3.len,
    Vec3.len_squared_mk, Vec3.mk_div, dot_mk, Vec3.mk_smul, Vec3.mk_sub_mk, Vec3.mk_add_mk,
    Ray.direction_mk]
  norm_num [Real.sqrt_one]

/-- Claim C6, witness: at the fixture the scatter succeeds, carries the
configured albedo, and its direction is the exact mirror reflection. -/
theorem metal_scatter_spec_witness :
    ∃ sc, Metal.scatter wMetal wRayM wRecM ⟨0, 0, 0⟩ = some (wMetal.albedo, sc) ∧
      sc.direction =
        reflect wRayM.direction.unit_vector wRecM.normal + (⟨0, 0, 0⟩ : Vec3) * wMetal.fuzz := by
  have H := (metal_scatter_spec wMetal wRayM wRecM ⟨0, 0, 0⟩).2.1
    (⟨0.8, 0.6, 0.2⟩ : Vec3) (Ray.mk wRecM.p ⟨0, 0, 1⟩) wMetal_scatter_eval
  refine ⟨Ray.mk wRecM.p ⟨0, 0, 1⟩, ?_, H.2⟩
  rw [← H.1]
  exact wMetal_scatter_eval

/-- Claim C7: Lambertian::scatter is absorbed exactly when the candidate
direction normal + random_unit_vector is near_zero; otherwise it scatters
from the hit point along that direction with attenuation the configured
albedo. -/
theorem lambertian_scatter_spec (l : Lambertian) (ray : Ray) (hrec : HitRecord)
    (ruv : Vec3) :
    (Lambertian.scatter l ray hrec ruv = none ↔ (hrec.normal + ruv).near_zero) ∧
    (∀ att sc, Lambertian.scatter l ray hrec ruv = some (att, sc) →
      att = l.albedo ∧ sc = Ray.mk hrec.p (hrec.normal + ruv)) := by
  unfold Lambertian.scatter
  by_cases hz : (hrec.normal + ruv).near_zero
  · rw [if_pos hz]
    exact ⟨⟨fun _ => hz, fun _ => rfl⟩, fun att sc h => absurd h (by simp)⟩
  · rw [if_neg hz]
    refine ⟨by simp [hz], ?_⟩
    intro att sc h
    rw [Option.some.injEq, Prod.mk.injEq] at h
    exact ⟨h.1.symm, h.2.symm⟩

/-- Lambertian of the render scene's center sphere. -/
def wLam : Lambertian := ⟨⟨0.1, 0.2, 0.5⟩⟩

/-- Claim C7, witness: with the random draw exactly cancelling the
normal the candidate direction is near_zero and the sample is absorbed;
with a zero draw the direction (0,0,1) is not near_zero and a scatter is
produced. -/
theorem lambertian_scatter_spec_witness :
    Lambertian.scatter wLam wRayM wRecM ⟨0, 0, -1⟩ = none ∧
    (Lambertian.scatter wLam wRayM wRecM ⟨0, 0, 0⟩).isSome := by
  constructor
  · exact (lambertian_scatter_spec wLam wRayM wRecM ⟨0, 0, -1⟩).1.mpr
      (by norm_num [wRecM, Vec3.near_zero])
  · rw [Option.isSome_iff_ne_none]
    intro hnone
    have hz := (lambertian_scatter_spec wLam wRayM wRecM ⟨0, 0, 0⟩).1.mp hnone
    rw [wRecM] at hz
    norm_num [Vec3.near_zero] at hz

/-! Unfolding lemmas for Object::hit and the ObjectList scan. -/

theorem Object.hit_sphere (s : Sphere) (ray : Ray) (t_min t_max : EReal) :
    Object.hit (Object.sphere s) ray t_min t_max = s.hit ray t_min t_max := by
  simp only [Object.hit]

theorem Object.hit_list (objects : List Object) (ray : Ray) (t_min t_max : EReal) :
    Object.hit (Object.list objects) ray t_min t_max =
      ObjectList.hitLoop objects ray t_min t_max none := by
  simp only [Object.hit]

theorem ObjectList.hitLoop_nil (ray : Ray) (t_min closest : EReal)
    (acc : Option HitRecord) :
    ObjectList.hitLoop [] ray t_min closest acc = acc := by
  simp only [ObjectList.hitLoop]

theorem ObjectList.hitLoop_cons (object : Object) (rest : List Object) (ray : Ray)
    (t_min closest : EReal) (acc : Option HitRecord) :
    ObjectList.hitLoop (object :: rest) ray t_min closest acc =
      match Object.hit object ray t_min closest with
      | some hrec => ObjectList.hitLoop rest ray t_min (hrec.t : EReal) (some hrec)
      | none => ObjectList.hitLoop rest ray t_min closest acc := by
  simp only [ObjectList.hitLoop]

theorem ObjectList.hitLoop_cons_some (object : Object) (rest : List Object) (ray : Ray)
    (t_min closest : EReal) (acc : Option HitRecord) (hrec1 : HitRecord)
    (hh : Object.hit object ray t_min closest = some hrec1) :
    ObjectList.hitLoop (object :: rest) ray t_min closest acc =
      ObjectList.hitLoop rest ray t_min (hrec1.t : EReal) (some hrec1) := by
  rw [ObjectList.hitLoop_cons, hh]

theorem ObjectList.hitLoop_cons_none (object : Object) (rest : List Object) (ray : Ray)
    (t_min closest : EReal) (acc : Option HitRecord)
    (hh : Object.hit object ray t_min closest = none) :
    ObjectList.hitLoop (object :: rest) ray t_min closest acc =
      ObjectList.hitLoop rest ray t_min closest acc := by
  rw [ObjectList.hitLoop_cons, hh]

theorem ObjectList.acceptedHits_nil (ray : Ray) (t_min closest : EReal) :
    ObjectList.acceptedHits [] ray t_min closest = [] := by
  simp only [ObjectList.acceptedHits]

theorem ObjectList.acceptedHits_cons_some (object : Object) (rest : List Object)
    (ray : Ray) (t_min closest : EReal) (hrec1 : HitRecord)
    (hh : Object.hit object ray t_min closest = some hrec1) :
    ObjectList.acceptedHits (object :: rest) ray t_min closest =
      hrec1 :: ObjectList.acceptedHits rest ray t_min (hrec1.t : EReal) := by
  simp only [ObjectList.acceptedHits]
  rw [hh]

theorem ObjectList.acceptedHits_cons_none (object : Object) (rest : List Object)
    (ray : Ray) (t_min closest : EReal)
    (hh : Object.hit object ray t_min closest = none) :
    ObjectList.acceptedHits (object :: rest) ray t_min closest =
      ObjectList.acceptedHits rest ray t_min closest := by
  simp only [ObjectList.acceptedHits]
  rw [hh]

/-- Even through the source's root-shadowing slip, Sphere::hit never
returns a t above the passed upper bound: the smaller root is at most
the larger one (sqrt is nonnegative and a = |direction|² >= 0). -/
theorem Sphere.hit_t_le (s : Sphere) (ray : Ray) (t_min t_max : EReal)
    (hrec : HitRecord) (h : Sphere.hit s ray t_min t_max = some hrec) :
    (hrec.t : EReal) ≤ t_max := by
  have hroots : ∀ hb sd a : ℝ, 0 ≤ sd → 0 ≤ a → (-hb - sd) / a ≤ (-hb + sd) / a := by
    intro hb sd a hsd ha
    rcases eq_or_lt_of_le ha with heq | hlt
    · rw [← heq, div_zero, div_zero]
    · exact (div_le_div_iff_of_pos_right hlt).mpr (by linarith)
  simp only [Sphere.hit] at h
  split at h
  · exact absurd h (by simp)
  · split at h
    · split at h
      · exact absurd h (by simp)
      · rename_i hinner
        rw [Option.some.injEq] at h
        subst h
        rw [Sphere.mkHit_t]
        push_neg at hinner
        exact le_trans
          (EReal.coe_le_coe_iff.mpr
            (hroots _ _ _ (Real.sqrt_nonneg _) (Vec3.len_squared_nonneg _)))
          hinner.2
    · rename_i houter
      rw [Option.some.injEq] at h
      subst h
      rw [Sphere.mkHit_t]
      push_neg at houter
      exact houter.2

mutual

/-- Every Object::hit result respects the upper bound of the interval it
was asked about. -/
theorem Object.hit_result_t_le (o : Object) (ray : Ray) (t_min t_max : EReal)
    (hrec : HitRecord) (h : Object.hit o ray t_min t_max = some hrec) :
    (hrec.t : EReal) ≤ t_max := by
  cases o with
  | sphere s =>
    rw [Object.hit_sphere] at h
    exact Sphere.hit_t_le s ray t_min t_max hrec h
  | list objects =>
    rw [Object.hit_list] at h
    exact ObjectList.hitLoop_t_le objects ray t_min t_max none hrec
      (by intro h0 h0e; exact absurd h0e (by simp)) h

/-- Loop invariant of the ObjectList scan: if the accumulator respects
the current closest bound, so does the final result. -/
theorem ObjectList.hitLoop_t_le (objects : List Object) (ray : Ray)
    (t_min closest : EReal) (acc : Option HitRecord) (hrec : HitRecord)
    (hacc : ∀ h0, acc = some h0 → (h0.t : EReal) ≤ closest)
    (h : ObjectList.hitLoop objects ray t_min closest acc = some hrec) :
    (hrec.t : EReal) ≤ closest := by
  cases objects with
  | nil =>
    rw [ObjectList.hitLoop_nil] at h
    exact hacc hrec h
  | cons object rest =>
    cases hh : Object.hit object ray t_min closest with
    | none =>
      rw [ObjectList.hitLoop_cons_none _ _ _ _ _ _ hh] at h
      exact ObjectList.hitLoop_t_le rest ray t_min closest acc hrec hacc h
    | some hrec1 =>
      rw [ObjectList.hitLoop_cons_some _ _ _ _ _ _ _ hh] at h
      have h1 : (hrec1.t : EReal) ≤ closest :=
        Object.hit_result_t_le object ray t_min closest hrec1 hh
      have h2 : (hrec.t : EReal) ≤ (hrec1.t : EReal) :=
        ObjectList.hitLoop_t_le rest ray t_min (hrec1.t : EReal) (some hrec1) hrec
          (by intro h0 h0e; rw [Option.some.injEq] at h0e; rw [← h0e]) h
      exact le_trans h2 h1

end

/-- Every hit accepted during the scan respects the closest bound the
scan started from. -/
theorem ObjectList.acceptedHits_le (objects : List Object) (ray : Ray)
    (t_min : EReal) :
    ∀ closest : EReal, ∀ h' ∈ ObjectList.acceptedHits objects ray t_min closest,
      (h'.t : EReal) ≤ closest := by
  induction objects with
  | nil =>
    intro closest h' hmem
    rw [ObjectList.acceptedHits_nil] at hmem
    exact absurd hmem (List.not_mem_nil h')
  | cons object rest ih =>
    intro closest h' hmem
    cases hh : Object.hit object ray t_min closest with
    | none =>
      rw [ObjectList.acceptedHits_cons_none _ _ _ _ _ hh] at hmem
      exact ih closest h' hmem
    | some hrec1 =>
      rw [ObjectList.acceptedHits_cons_some _ _ _ _ _ _ hh] at hmem
      have h1 : (hrec1.t : EReal) ≤ closest :=
        Object.hit_result_t_le object ray t_min closest hrec1 hh
      rcases List.mem_cons.mp hmem with rfl | hmem'
      · exact h1
      · exact le_trans (ih (hrec1.t : EReal) h' hmem') h1

/-- With a some-accumulator the scan can never end with none. -/
theorem ObjectList.hitLoop_ne_none (objects : List Object) (ray : Ray)
    (t_min : EReal) :
    ∀ (closest : EReal) (h0 : HitRecord),
      ObjectList.hitLoop objects ray t_min closest (some h0) ≠ none := by
  induction objects with
  | nil =>
    intro closest h0
    rw [ObjectList.hitLoop_nil]
    simp
  | cons object rest ih =>
    intro closest h0
    cases hh : Object.hit object ray t_min closest with
    | none =>
      rw [ObjectList.hitLoop_cons_none _ _ _ _ _ _ hh]
      exact ih closest h0
    | some hrec1 =>
      rw [ObjectList.hitLoop_cons_some _ _ _ _ _ _ _ hh]
      exact ih (hrec1.t : EReal) hrec1

/-- The scan's result is either the accumulator (when nothing was
accepted) or the last accepted hit, which is minimal in t among all
accepted hits. -/
theorem ObjectList.hitLoop_min (objects : List Object) (ray : Ray) (t_min : EReal) :
    ∀ (closest : EReal) (acc : Option HitRecord) (hrec : HitRecord),
      ObjectList.hitLoop objects ray t_min closest acc = some hrec →
      (ObjectList.acceptedHits objects ray t_min closest = [] ∧ acc = some hrec) ∨
      (hrec ∈ ObjectList.acceptedHits objects ray t_min closest ∧
        ∀ h' ∈ ObjectList.acceptedHits objects ray t_min closest, hrec.t ≤ h'.t) := by
  induction objects with
  | nil =>
    intro closest acc hrec h
    rw [ObjectList.hitLoop_nil] at h
    exact Or.inl ⟨ObjectList.acceptedHits_nil ray t_min closest, h⟩
  | cons object rest ih =>
    intro closest acc hrec h
    cases hh : Object.hit object ray t_min closest with
    | none =>
      rw [ObjectList.hitLoop_cons_none _ _ _ _ _ _ hh] at h
      rw [ObjectList.acceptedHits_cons_none _ _ _ _ _ hh]
      exact ih closest acc hrec h
    | some hrec1 =>
      rw [ObjectList.hitLoop_cons_some _ _ _ _ _ _ _ hh] at h
      rw [ObjectList.acceptedHits_cons_some _ _ _ _ _ _ hh]
      rcases ih (hrec1.t : EReal) (some hrec1) hrec h with ⟨hemp, hacc⟩ | ⟨hmem, hmin⟩
      · rw [Option.some.injEq] at hacc
        subst hacc
        refine Or.inr ⟨by rw [hemp]; exact List.mem_singleton_self _, ?_⟩
        intro h' hm
        rw [hemp] at hm
        rcases List.mem_singleton.mp hm with rfl
        exact le_refl _
      · refine Or.inr ⟨List.mem_cons_of_mem _ hmem, ?_⟩
        intro h' hm
        rcases List.mem_cons.mp hm with rfl | hm'
        · exact EReal.coe_le_coe_iff.mp
            (ObjectList.acceptedHits_le rest ray t_min _ hrec hmem)
        · exact hmin h' hm'

/-- Claim C3: ObjectList::hit misses exactly when every child misses the
full interval, and any returned record is one of the hits accepted
during the narrowing scan and has the least t among them (the closest
intersection). -/
theorem objectList_hit_closest (objects : List Object) (ray : Ray)
    (t_min t_max : EReal) :
    (ObjectList.hit objects ray t_min t_max = none ↔
      ∀ o ∈ objects, Object.hit o ray t_min t_max = none) ∧
    ∀ hrec, ObjectList.hit objects ray t_min t_max = some hrec →
      hrec ∈ ObjectList.acceptedHits objects ray t_min t_max ∧
      ∀ h' ∈ ObjectList.acceptedHits objects ray t_min t_max, hrec.t ≤ h'.t := by
  constructor
  · unfold ObjectList.hit
    induction objects with
    | nil =>
      rw [ObjectList.hitLoop_nil]
      simp
    | cons object rest ih =>
      cases hh : Object.hit object ray t_min t_max with
      | none =>
        rw [ObjectList.hitLoop_cons_none _ _ _ _ _ _ hh, List.forall_mem_cons]
        rw [ih]
        simp [hh]
      | some hrec1 =>
        rw [ObjectList.hitLoop_cons_some _ _ _ _ _ _ _ hh]
        constructor
        · intro hnone
          exact absurd hnone (ObjectList.hitLoop_ne_none rest ray t_min _ _)
        · intro hall
          have := hall object (List.mem_cons_self _ _)
          rw [hh] at this
          exact absurd this (by simp)
  · intro hrec h
    unfold ObjectList.hit at h
    rcases ObjectList.hitLoop_min objects ray t_min t_max none hrec h with
      ⟨_, hacc⟩ | hgood
    · exact absurd hacc (by simp)
    · exact hgood

/-- Second sphere of the nearest-first witness, six units down -z. -/
def wSphereFar : Sphere := ⟨⟨0, 0, -3⟩, 0.5, mat0⟩

/-- Evaluation: the far sphere over the full interval is hit at t = 5/2. -/
theorem wSphereFar_hit_eval :
    Sphere.hit wSphereFar wRayC4 ((0.001 : ℝ) : EReal) ((100 : ℝ) : EReal) =
      some (wSphereFar.mkHit wRayC4 (5 / 2)) := by
  simp only [Sphere.hit, wSphereFar, wRayC4, Vec3.mk_sub_mk, dot_mk, Vec3.len_squared_mk,
    EReal.coe_lt_coe_iff]
  norm_num [sqrt_quarter, sqrt_four]

/-- Evaluation: the near sphere still hits at t = 1/2 inside the
narrowed interval (0.001, 5/2]. -/
theorem wSphereC4_hit_narrowed_eval :
    Sphere.hit wSphereC4 wRayC4 ((0.001 : ℝ) : EReal) ((5 / 2 : ℝ) : EReal) =
      some (wSphereC4.mkHit wRayC4 (1 / 2)) := by
  simp only [Sphere.hit, wSphereC4, wRayC4, Vec3.mk_sub_mk, dot_mk, Vec3.len_squared_mk,
    EReal.coe_lt_coe_iff]
  norm_num [sqrt_quarter, sqrt_four]

/-- Claim C3, witness: over the two spheres on the same ray the list
returns the nearer hit t = 1/2, and its t is at most the far accepted
hit's t = 5/2. -/
theorem objectList_hit_closest_witness :
    ObjectList.hit [Object.sphere wSphereFar, Object.sphere wSphereC4] wRayC4
        ((0.001 : ℝ) : EReal) ((100 : ℝ) : EReal) =
      some (wSphereC4.mkHit wRayC4 (1 / 2)) ∧
    (wSphereC4.mkHit wRayC4 (1 / 2)).t ≤ (wSphereFar.mkHit wRayC4 (5 / 2)).t := by
  have h1 : Object.hit (Object.sphere wSphereFar) wRayC4 ((0.001 : ℝ) : EReal)
      ((100 : ℝ) : EReal) = some (wSphereFar.mkHit wRayC4 (5 / 2)) := by
    rw [Object.hit_sphere]
    exact wSphereFar_hit_eval
  have h2 : Object.hit (Object.sphere wSphereC4) wRayC4 ((0.001 : ℝ) : EReal)
      ((5 / 2 : ℝ) : EReal) = some (wSphereC4.mkHit wRayC4 (1 / 2)) := by
    rw [Object.hit_sphere]
    exact wSphereC4_hit_narrowed_eval
  have heval : ObjectList.hit [Object.sphere wSphereFar, Object.sphere wSphereC4] wRayC4
      ((0.001 : ℝ) : EReal) ((100 : ℝ) : EReal) =
        some (wSphereC4.mkHit wRayC4 (1 / 2)) := by
    unfold ObjectList.hit
    rw [ObjectList.hitLoop_cons_some _ _ _ _ _ _ _ h1, Sphere.mkHit_t,
      ObjectList.hitLoop_cons_some _ _ _ _ _ _ _ h2, Sphere.mkHit_t,
      ObjectList.hitLoop_nil]
  have haccept : ObjectList.acceptedHits
      [Object.sphere wSphereFar, Object.sphere wSphereC4] wRayC4
      ((0.001 : ℝ) : EReal) ((100 : ℝ) : EReal) =
        [wSphereFar.mkHit wRayC4 (5 / 2), wSphereC4.mkHit wRayC4 (1 / 2)] := by
    rw [ObjectList.acceptedHits_cons_some _ _ _ _ _ _ h1, Sphere.mkHit_t,
      ObjectList.acceptedHits_cons_some _ _ _ _ _ _ h2, Sphere.mkHit_t,
      ObjectList.acceptedHits_nil]
  have H := (objectList_hit_closest [Object.sphere wSphereFar, Object.sphere wSphereC4]
    wRayC4 ((0.001 : ℝ) : EReal) ((100 : ℝ) : EReal)).2
    (wSphereC4.mkHit wRayC4 (1 / 2)) heval
  refine ⟨heval, H.2 (wSphereFar.mkHit wRayC4 (5 / 2)) ?_⟩
  rw [haccept]
  exact List.mem_cons_self _ _

end

end RSRay
